import Mathlib

/-!
Verification of the partitioned heat-conduction coupling loop
(`laplace` in `partitioned-heat-conduction/nutils/heat.py`).

The coupling controller is embedded shallowly: the external collaborators
(the nutils finite-element solver and the preCICE coupling channel) are
abstract.  The channel's answers in one run form a trace, one `Event` per
iteration of the `while interface.is_coupling_ongoing()` loop; the solver's
operations (`optimize`, `solve_linear`, `res.eval`, the residual update and
the two sample evaluations) are fields of a `Config`.  The loop body
`laplaceIter` and the loop `runLoop` are translated line by line from the
source; each iteration also returns an `IterLog` recording the arguments the
source passes to the external calls, so that the ordering, step-size and
write-buffer claims can be stated about observable behaviour.
-/

namespace HeatCoupling

/-- The participant's role, from the source's `side` string after the
startup check `if side == 'Neumann' ... elif side == 'Dirichlet' ... else raise`. -/
inductive Side : Type
| Dirichlet : Side
| Neumann : Side
deriving DecidableEq, Repr

/-- The startup dispatch on `side`: the source raises
`Exception('invalid side ...')` for any value other than `'Neumann'` and
`'Dirichlet'`, before the preCICE interface is created or any mesh vertex is
registered. -/
def checkSide (side : String) : Except String Side :=
  if side = ("Neumann") then Except.ok Side.Neumann
  else if side = ("Dirichlet") then Except.ok Side.Dirichlet
  else Except.error (("invalid side ") ++ side)

/-- `writeData = "Temperature" if side == "Neumann" else "Flux"`. -/
def writeDataName : Side → String
| Side.Neumann => ("Temperature")
| Side.Dirichlet => ("Flux")

/-- One iteration's worth of answers from the coupling channel:
`is_read_data_available`, the data read, the two `is_action_required`
answers, `is_write_data_required`, and the admissible step returned by
`advance`. -/
structure Event : Type where
  readAvailable : Bool
  readData : List ℚ
  writeCheckpointRequired : Bool
  writeRequired : Bool
  advanceResult : ℚ
  readCheckpointRequired : Bool
deriving DecidableEq, Repr

/-- The mutable state of the coupling loop: the constraint array `cons`, the
residual `res`, the previous-window solution `lhs0`, the checkpoint variable
`lhscheckpoint` (`none` while the Python name is still unassigned) and the
admissible step `precice_dt` most recently returned by the channel. -/
structure LoopState (R : Type) (n : ℕ) : Type where
  cons : Fin n → Option ℚ
  res : R
  lhs0 : Fin n → ℚ
  lhscheckpoint : Option (Fin n → ℚ)
  precice_dt : ℚ

/-- The fixed configuration of one run: the configured maximal `timestep`,
the role, the startup values `cons0`/`res0`, the abstract solver operations,
the chosen flux-projection strategy `fluxdofs`, and the production sample
(`couplingsampleCC`): its points and the basis evaluated at them. -/
structure Config (R P : Type) (n : ℕ) : Type where
  timestep : ℚ
  side : Side
  res0 : R
  cons0 : Fin n → Option ℚ
  optimize : List ℚ → (Fin n → Option ℚ) → (Fin n → Option ℚ)
  addSource : R → List ℚ → R
  solveLinear : R → (Fin n → Option ℚ) → (Fin n → ℚ) → ℚ → (Fin n → ℚ)
  resEval : R → (Fin n → ℚ) → (Fin n → ℚ) → ℚ → (Fin n → ℚ)
  fluxdofs : (Fin n → ℚ) → (Fin n → ℚ)
  ccPoints : List P
  basisCC : P → Fin n → ℚ

/-- The six phases of one loop iteration, with the run-ending `finalize`.
Payloads record what the phase observably did. -/
inductive Step : Type
| awaitRead : Bool → Step
| maybeCheckpoint : Bool → Step
| solve : ℚ → Step
| maybeWrite : Bool → Step
| advance : ℚ → Step
| decide : Bool → Step
| finalize : Step
deriving DecidableEq, Repr

/-- Position of a phase in the per-iteration order. -/
def phase : Step → ℕ
| Step.awaitRead _ => 0
| Step.maybeCheckpoint _ => 1
| Step.solve _ => 2
| Step.maybeWrite _ => 3
| Step.advance _ => 4
| Step.decide _ => 5
| Step.finalize => 6

/-- What one iteration passed to the external calls: the residual,
constraints, previous solution and step size given to `solve_linear`, the
solution it returned, the quantity name and buffer written (if any), and the
step size passed to `advance`. -/
structure IterLog (R P : Type) (n : ℕ) : Type where
  steps : List Step
  solveRes : R
  solveCons : Fin n → Option ℚ
  solveLhs0 : Fin n → ℚ
  solveDt : ℚ
  solved : Fin n → ℚ
  written : Option (String × List ℚ)
  advanceSent : ℚ

/-- The one runtime failure the loop itself can raise: reading the
checkpoint variable before any assignment (Python `NameError`). -/
inductive RunError : Type
| nameError : RunError
deriving DecidableEq, Repr

/-- Pointwise evaluation of a field: basis values at a point contracted
with a coefficient vector (`basis_n ?lhs_n` at one sample point). -/
def dot {n : ℕ} (a b : Fin n → ℚ) : ℚ :=
  Finset.univ.sum fun i => a i * b i

/-- The `AwaitRead` phase (`if interface.is_read_data_available(): ...`):
when data is available the Dirichlet participant rebuilds `cons` from the
read values constrained by `cons0`, the Neumann participant rebuilds
`res = res0 + couplingsampleGP.integral(basis * coupledata)`; otherwise both
`cons` and `res` are left as they were. -/
def readFold {R P : Type} {n : ℕ} (cfg : Config R P n) (ev : Event)
    (s : LoopState R n) : (Fin n → Option ℚ) × R :=
  if ev.readAvailable then
    match cfg.side with
    | Side.Dirichlet => (cfg.optimize ev.readData cfg.cons0, s.res)
    | Side.Neumann => (s.cons, cfg.addSource cfg.res0 ev.readData)
  else (s.cons, s.res)

/-- The buffer written in `MaybeWrite`: the Dirichlet participant evaluates
`'flux' @ ns` at the production points with `fluxdofs = fluxdofs(res.eval(
lhs0=lhs0, lhs=lhs, dt=dt))`; the Neumann participant evaluates `'u' @ ns`
at the production points directly. -/
def writeBuffer {R P : Type} {n : ℕ} (cfg : Config R P n) (res1 : R)
    (lhs0 lhs : Fin n → ℚ) (dt : ℚ) : List ℚ :=
  match cfg.side with
  | Side.Dirichlet =>
      cfg.ccPoints.map fun p =>
        dot (cfg.basisCC p) (cfg.fluxdofs (cfg.resEval res1 lhs0 lhs dt))
  | Side.Neumann => cfg.ccPoints.map fun p => dot (cfg.basisCC p) lhs

/-- One iteration of the coupling loop, translated from the body of
`while interface.is_coupling_ongoing():`. -/
def laplaceIter {R P : Type} {n : ℕ} (cfg : Config R P n) (ev : Event)
    (s : LoopState R n) : Except RunError (LoopState R n × IterLog R P n) :=
  let cr : (Fin n → Option ℚ) × R := readFold cfg ev s
  let ckpt1 : Option (Fin n → ℚ) :=
    if ev.writeCheckpointRequired then some s.lhs0 else s.lhscheckpoint
  let dt : ℚ := min cfg.timestep s.precice_dt
  let lhs : Fin n → ℚ := cfg.solveLinear cr.2 cr.1 s.lhs0 dt
  let written : Option (String × List ℚ) :=
    if ev.writeRequired then
      some (writeDataName cfg.side, writeBuffer cfg cr.2 s.lhs0 lhs dt)
    else none
  let log : IterLog R P n :=
    ⟨[Step.awaitRead ev.readAvailable, Step.maybeCheckpoint ev.writeCheckpointRequired,
      Step.solve dt, Step.maybeWrite ev.writeRequired, Step.advance dt,
      Step.decide ev.readCheckpointRequired],
     cr.2, cr.1, s.lhs0, dt, lhs, written, dt⟩
  if ev.readCheckpointRequired then
    match ckpt1 with
    | none => Except.error RunError.nameError
    | some c => Except.ok (⟨cr.1, cr.2, c, ckpt1, ev.advanceResult⟩, log)
  else Except.ok (⟨cr.1, cr.2, lhs, ckpt1, ev.advanceResult⟩, log)

/-- The coupling loop over a trace of channel answers (one `Event` per
iteration in which `is_coupling_ongoing()` was true). -/
def runLoop {R P : Type} {n : ℕ} (cfg : Config R P n) :
    List Event → LoopState R n →
    Except RunError (LoopState R n × List (IterLog R P n))
| [], s => Except.ok (s, [])
| ev :: tl, s =>
  match laplaceIter cfg ev s with
  | Except.error e => Except.error e
  | Except.ok (s1, log) =>
    match runLoop cfg tl s1 with
    | Except.error e => Except.error e
    | Except.ok (sF, logs) => Except.ok (sF, log :: logs)

/-- The state just before the loop: `cons`/`res` from startup,
`lhs0 = numpy.zeros(res.shape)`, `lhscheckpoint` unassigned, `precice_dt`
returned by `interface.initialize()`. -/
def initState {R P : Type} {n : ℕ} (cfg : Config R P n) (p0 : ℚ) : LoopState R n :=
  ⟨cfg.cons0, cfg.res0, fun _ => 0, none, p0⟩

/-- The whole run of `laplace` with a `side` string: the startup side check,
then the loop; a loop-time `NameError` surfaces as the interpreter's message. -/
def laplace {R P : Type} {n : ℕ} (side : String) (mkCfg : Side → Config R P n)
    (p0 : ℚ) (tr : List Event) :
    Except String (LoopState R n × List (IterLog R P n)) :=
  match checkSide side with
  | Except.error e => Except.error e
  | Except.ok sd =>
    match runLoop (mkCfg sd) tr (initState (mkCfg sd) p0) with
    | Except.error RunError.nameError =>
        Except.error ("name lhscheckpoint is not defined")
    | Except.ok r => Except.ok r

/-- The observable step sequence of a successful run: each iteration's
phases, then the `interface.finalize()` call. -/
def fullTrace {R P : Type} {n : ℕ} (logs : List (IterLog R P n)) : List Step :=
  (logs.map IterLog.steps).flatten ++ [Step.finalize]

/-- The per-iteration step sizes of a run: `dt = min(timestep, precice_dt)`
where `precice_dt` is the channel's most recent answer — the `initialize`
result before the first iteration, the previous `advance` result after. -/
def dtSeq (timestep : ℚ) : ℚ → List Event → List ℚ
| _, [] => []
| p, ev :: tl => min timestep p :: dtSeq timestep ev.advanceResult tl

/-- `projectionmatrix.rowsupp(tol)`: the rows holding an entry whose
magnitude exceeds `tol`. -/
def rowsupp {n : ℕ} (M : Fin n → Fin n → ℚ) (tol : ℚ) (i : Fin n) : Bool :=
  decide (∃ j, tol < |M i j|)

/-- The droptol `1e-15` of the projection, as an exact rational. -/
def projTol : ℚ := 1 / 10 ^ 15

/-- A quadrature over the coupling interface: weighted basis evaluations,
one `(weight, basis values)` pair per quadrature point. -/
def Quad (n : ℕ) : Type := List (ℚ × (Fin n → ℚ))

/-- `couplinginterface.integrate(nutils.function.outer(ns.basis))`: the
interface mass matrix `M i j = Σ_k w_k b_k(i) b_k(j)`. -/
def projMatrix {n : ℕ} (q : Quad n) : Fin n → Fin n → ℚ :=
  fun i j => (q.map fun wb => wb.1 * wb.2 i * wb.2 j).sum

/-- `projectioncons`: zeros everywhere, NaN (here `none`, unconstrained) at
the rows with support above `projTol`. -/
def projectioncons {n : ℕ} (M : Fin n → Fin n → ℚ) : Fin n → Option ℚ :=
  fun i => if rowsupp M projTol i then none else some 0

/-- nutils `matrix.solve(v, constrain=cons)`: constrained entries take their
prescribed values; the free entries come from the (external) linear solver
`freeSol` applied to the system. -/
def constrainedSolve {n : ℕ}
    (freeSol : (Fin n → Fin n → ℚ) → (Fin n → ℚ) → (Fin n → Option ℚ) → (Fin n → ℚ))
    (M : Fin n → Fin n → ℚ) (v : Fin n → ℚ) (cons : Fin n → Option ℚ) :
    Fin n → ℚ :=
  fun i =>
    match cons i with
    | some c => c
    | none => freeSol M v cons i

/-- The `project=True` strategy: solve the interface mass system against the
input flux with all rows of negligible support constrained to zero. -/
def fluxdofsProj {n : ℕ}
    (freeSol : (Fin n → Fin n → ℚ) → (Fin n → ℚ) → (Fin n → Option ℚ) → (Fin n → ℚ))
    (q : Quad n) (v : Fin n → ℚ) : Fin n → ℚ :=
  constrainedSolve freeSol (projMatrix q) v (projectioncons (projMatrix q))

/-- `normalize`: zero where the interface area is not positive, the
reciprocal area elsewhere (`normalize[interfaceareas > 0] =
1 / interfaceareas[interfaceareas > 0]`). -/
def normalize {n : ℕ} (interfaceareas : Fin n → ℚ) : Fin n → ℚ :=
  fun i => if 0 < interfaceareas i then (interfaceareas i)⁻¹ else 0

/-- The `project=False` strategy: `fluxdofs = lambda v: v * normalize`. -/
def fluxdofsAvg {n : ℕ} (interfaceareas : Fin n → ℚ) (v : Fin n → ℚ) :
    Fin n → ℚ :=
  fun i => v i * normalize interfaceareas i

/-- A minimal concrete configuration (one degree of freedom, trivial
residual type, one production point) used to exercise the loop on concrete
traces. -/
def unitCfg : Config Unit Unit 1 :=
  ⟨1, Side.Dirichlet, (), (fun _ => none), (fun _ c => c), (fun r _ => r),
   (fun _ _ v _ => v), (fun _ _ v _ => v), id, [()], (fun _ _ => 1)⟩

/-- The precondition under which the checkpoint variable is always assigned
before it is read: every iteration requiring the read-checkpoint action is
preceded (or accompanied) by one requiring the write-checkpoint action. -/
def ckptPre (tr : List Event) : Prop :=
  ∀ (k : ℕ) (hk : k < tr.length),
    (tr.get ⟨k, hk⟩).readCheckpointRequired = true →
    ∃ (j : ℕ) (hj : j < tr.length), j ≤ k ∧
      (tr.get ⟨j, hj⟩).writeCheckpointRequired = true

/-! ## Behaviour of one iteration -/

/-- On a successful iteration every observable of the loop body is
determined: the six phases in order, the exact arguments of the linear
solve, the written buffer, the step sizes, and the `Decide` outcome. -/
theorem laplaceIter_ok_spec {R P : Type} {n : ℕ} {cfg : Config R P n}
    {ev : Event} {s s' : LoopState R n} {log : IterLog R P n}
    (h : laplaceIter cfg ev s = Except.ok (s', log)) :
    log.steps = [Step.awaitRead ev.readAvailable,
      Step.maybeCheckpoint ev.writeCheckpointRequired,
      Step.solve (min cfg.timestep s.precice_dt),
      Step.maybeWrite ev.writeRequired,
      Step.advance (min cfg.timestep s.precice_dt),
      Step.decide ev.readCheckpointRequired] ∧
    log.solveCons = (readFold cfg ev s).1 ∧
    log.solveRes = (readFold cfg ev s).2 ∧
    log.solveLhs0 = s.lhs0 ∧
    log.solveDt = min cfg.timestep s.precice_dt ∧
    log.solved = cfg.solveLinear (readFold cfg ev s).2 (readFold cfg ev s).1
      s.lhs0 (min cfg.timestep s.precice_dt) ∧
    log.written = (if ev.writeRequired then
        some (writeDataName cfg.side,
          writeBuffer cfg (readFold cfg ev s).2 s.lhs0 log.solved log.solveDt)
      else none) ∧
    log.advanceSent = min cfg.timestep s.precice_dt ∧
    s'.cons = (readFold cfg ev s).1 ∧
    s'.res = (readFold cfg ev s).2 ∧
    s'.lhscheckpoint =
      (if ev.writeCheckpointRequired then some s.lhs0 else s.lhscheckpoint) ∧
    s'.precice_dt = ev.advanceResult ∧
    (ev.readCheckpointRequired = true →
      ∃ c, (if ev.writeCheckpointRequired then some s.lhs0
        else s.lhscheckpoint) = some c ∧ s'.lhs0 = c) ∧
    (ev.readCheckpointRequired = false → s'.lhs0 = log.solved) := by
  unfold laplaceIter at h
  by_cases hrc : ev.readCheckpointRequired = true
  · simp only [hrc, if_true] at h
    rcases hc : (if ev.writeCheckpointRequired then some s.lhs0
        else s.lhscheckpoint) with _ | c
    · rw [hc] at h
      exact absurd h (by simp)
    · rw [hc] at h
      simp only [Except.ok.injEq, Prod.mk.injEq] at h
      obtain ⟨hs, hl⟩ := h
      subst hs hl
      refine ⟨by rw [hrc], rfl, rfl, rfl, rfl, rfl, rfl, rfl, rfl, rfl,
        rfl, rfl, fun _ => ⟨c, rfl, rfl⟩, fun hf => ?_⟩
      rw [hf] at hrc
      exact absurd hrc (by simp)
  · simp only [Bool.not_eq_true] at hrc
    simp only [hrc, Bool.false_eq_true, if_false] at h
    simp only [Except.ok.injEq, Prod.mk.injEq] at h
    obtain ⟨hs, hl⟩ := h
    subst hs hl
    exact ⟨by rw [hrc], rfl, rfl, rfl, rfl, rfl, rfl, rfl, rfl, rfl, rfl, rfl,
      fun hf => absurd hf (by rw [hrc]; simp), fun _ => rfl⟩

/-- An iteration succeeds whenever the checkpoint variable is assigned by
the time `Decide` would read it. -/
theorem laplaceIter_ok_of_ckpt {R P : Type} {n : ℕ} (cfg : Config R P n)
    (ev : Event) (s : LoopState R n)
    (h : ev.readCheckpointRequired = true →
      (if ev.writeCheckpointRequired then some s.lhs0
        else s.lhscheckpoint).isSome = true) :
    ∃ r, laplaceIter cfg ev s = Except.ok r := by
  unfold laplaceIter
  by_cases hrc : ev.readCheckpointRequired = true
  · rcases hc : (if ev.writeCheckpointRequired then some s.lhs0
        else s.lhscheckpoint) with _ | c
    · rw [hc] at h
      simp [hrc] at h
    · simp only [hrc, if_true, hc]
      exact ⟨_, rfl⟩
  · simp only [Bool.not_eq_true] at hrc
    simp only [hrc, Bool.false_eq_true, if_false]
    exact ⟨_, rfl⟩

/-! ## Claims about a single iteration -/

/-- C1: after `Advance`, the `Decide` phase has exactly two outcomes: if the
channel requires the read-checkpoint action, `lhs0` is restored to the value
held by the checkpoint (the sub-iteration's solution is discarded);
otherwise the new solution becomes `lhs0`.  In both cases `cons`, `res` and
the checkpoint itself are carried over unchanged from the solve phase. -/
theorem decide_restore_or_commit {R P : Type} {n : ℕ} (cfg : Config R P n)
    (ev : Event) (s s' : LoopState R n) (log : IterLog R P n)
    (h : laplaceIter cfg ev s = Except.ok (s', log)) :
    (ev.readCheckpointRequired = true →
      ∃ c, (if ev.writeCheckpointRequired then some s.lhs0
        else s.lhscheckpoint) = some c ∧ s'.lhs0 = c) ∧
    (ev.readCheckpointRequired = false → s'.lhs0 = log.solved) ∧
    s'.cons = log.solveCons ∧ s'.res = log.solveRes ∧
    s'.lhscheckpoint =
      (if ev.writeCheckpointRequired then some s.lhs0 else s.lhscheckpoint) := by
  obtain ⟨-, h2, h3, -, -, -, -, -, h9, h10, h11, -, h13, h14⟩ :=
    laplaceIter_ok_spec h
  exact ⟨h13, h14, h9.trans h2.symm, h10.trans h3.symm, h11⟩

/-- The channel answers of an iteration that saves a checkpoint and is then
told to roll back. -/
def evRollback : Event := ⟨false, [], true, false, 1, true⟩

/-- The state `laplaceIter` produces from `initState unitCfg 1` on
`evRollback`. -/
def stateRollback : LoopState Unit 1 :=
  ⟨(fun _ => none), (), (fun _ => 0), some (fun _ => 0), 1⟩

/-- The log `laplaceIter` produces from `initState unitCfg 1` on
`evRollback`. -/
def logRollback : IterLog Unit Unit 1 :=
  ⟨[Step.awaitRead false, Step.maybeCheckpoint true, Step.solve (min 1 1),
    Step.maybeWrite false, Step.advance (min 1 1), Step.decide true],
   (), (fun _ => none), (fun _ => 0), min 1 1, (fun _ => 0), none, min 1 1⟩

theorem decide_restore_or_commit_witness :
    ∃ c, (if evRollback.writeCheckpointRequired
        then some (initState unitCfg 1).lhs0
        else (initState unitCfg 1).lhscheckpoint) = some c ∧
      stateRollback.lhs0 = c :=
  (decide_restore_or_commit unitCfg evRollback (initState unitCfg 1)
    stateRollback logRollback (by rfl)).1 rfl

/-- C4: when the channel requires a write, the buffer pushed through the
channel is role-dependent: the Dirichlet participant writes the quantity
`Flux`, the residual evaluated at the solve's arguments mapped through the
configured projection strategy and sampled at the production points; the
Neumann participant writes the quantity `Temperature`, the solution field
sampled at the production points directly; either buffer holds one value per
production sample point. -/
theorem write_role_buffer {R P : Type} {n : ℕ} (cfg : Config R P n)
    (ev : Event) (s s' : LoopState R n) (log : IterLog R P n)
    (h : laplaceIter cfg ev s = Except.ok (s', log))
    (hw : ev.writeRequired = true) :
    log.written = some (writeDataName cfg.side,
      writeBuffer cfg log.solveRes s.lhs0 log.solved log.solveDt) ∧
    (cfg.side = Side.Dirichlet → writeDataName cfg.side = ("Flux") ∧
      writeBuffer cfg log.solveRes s.lhs0 log.solved log.solveDt =
        cfg.ccPoints.map fun p => dot (cfg.basisCC p)
          (cfg.fluxdofs (cfg.resEval log.solveRes s.lhs0 log.solved log.solveDt))) ∧
    (cfg.side = Side.Neumann → writeDataName cfg.side = ("Temperature") ∧
      writeBuffer cfg log.solveRes s.lhs0 log.solved log.solveDt =
        cfg.ccPoints.map fun p => dot (cfg.basisCC p) log.solved) ∧
    (writeBuffer cfg log.solveRes s.lhs0 log.solved log.solveDt).length =
      cfg.ccPoints.length := by
  obtain ⟨-, -, h3, -, -, -, h7, -, -, -, -, -, -, -⟩ := laplaceIter_ok_spec h
  rw [hw, if_pos rfl] at h7
  refine ⟨by rw [h7, h3], ?_, ?_, ?_⟩
  · intro hside
    exact ⟨by rw [hside]; rfl, by rw [writeBuffer, hside]⟩
  · intro hside
    exact ⟨by rw [hside]; rfl, by rw [writeBuffer, hside]⟩
  · unfold writeBuffer
    cases cfg.side <;> simp

/-- The channel answers of an iteration that requires a data write. -/
def evWrite : Event := ⟨false, [], false, true, 1, false⟩

/-- The state `laplaceIter` produces from `initState unitCfg 1` on
`evWrite`. -/
def stateWrite : LoopState Unit 1 :=
  ⟨(fun _ => none), (), (fun _ => 0), none, 1⟩

/-- The log `laplaceIter` produces from `initState unitCfg 1` on
`evWrite`. -/
def logWrite : IterLog Unit Unit 1 :=
  ⟨[Step.awaitRead false, Step.maybeCheckpoint false, Step.solve (min 1 1),
    Step.maybeWrite true, Step.advance (min 1 1), Step.decide false],
   (), (fun _ => none), (fun _ => 0), min 1 1, (fun _ => 0),
   some (writeDataName unitCfg.side,
     writeBuffer unitCfg () (fun _ => 0) (fun _ => 0) (min 1 1)), min 1 1⟩

theorem write_role_buffer_witness :
    (writeBuffer unitCfg logWrite.solveRes (initState unitCfg 1).lhs0
      logWrite.solved logWrite.solveDt).length = unitCfg.ccPoints.length :=
  (write_role_buffer unitCfg evWrite (initState unitCfg 1) stateWrite logWrite
    (by rfl) rfl).2.2.2

/-- C5: in an iteration with no new read data, both the constraint array and
the residual are exactly the previous iteration's, and the linear solve is
still performed on those previous values. -/
theorem no_new_data_frame {R P : Type} {n : ℕ} (cfg : Config R P n)
    (ev : Event) (s s' : LoopState R n) (log : IterLog R P n)
    (h : laplaceIter cfg ev s = Except.ok (s', log))
    (hr : ev.readAvailable = false) :
    log.solveCons = s.cons ∧ log.solveRes = s.res ∧
    s'.cons = s.cons ∧ s'.res = s.res ∧
    log.solved = cfg.solveLinear s.res s.cons s.lhs0
      (min cfg.timestep s.precice_dt) := by
  obtain ⟨-, h2, h3, -, -, h6, -, -, h9, h10, -, -, -, -⟩ := laplaceIter_ok_spec h
  have hrf : readFold cfg ev s = (s.cons, s.res) := by
    unfold readFold
    rw [hr]
    simp
  rw [hrf] at h2 h3 h6 h9 h10
  exact ⟨h2, h3, h9, h10, h6⟩

theorem no_new_data_frame_witness :
    logWrite.solveCons = (initState unitCfg 1).cons ∧
    logWrite.solveRes = (initState unitCfg 1).res ∧
    stateWrite.cons = (initState unitCfg 1).cons ∧
    stateWrite.res = (initState unitCfg 1).res ∧
    logWrite.solved = unitCfg.solveLinear (initState unitCfg 1).res
      (initState unitCfg 1).cons (initState unitCfg 1).lhs0
      (min unitCfg.timestep (initState unitCfg 1).precice_dt) :=
  no_new_data_frame unitCfg evWrite (initState unitCfg 1) stateWrite logWrite
    (by rfl) rfl

/-! ## Claims about the flux-projection strategies -/

/-- C6: under area-weighted averaging the output at each degree of freedom
is the input divided by the precomputed interface area where that area is
positive, and exactly zero where the area is zero — no division by zero is
ever performed. -/
theorem fluxdofsAvg_spec {n : ℕ} (interfaceareas v : Fin n → ℚ) (i : Fin n) :
    (0 < interfaceareas i →
      fluxdofsAvg interfaceareas v i = v i / interfaceareas i) ∧
    (interfaceareas i = 0 → fluxdofsAvg interfaceareas v i = 0) := by
  constructor
  · intro h
    rw [fluxdofsAvg, normalize, if_pos h, div_eq_mul_inv]
  · intro h
    rw [fluxdofsAvg, normalize, if_neg (by rw [h]; exact lt_irrefl 0), mul_zero]

theorem fluxdofsAvg_spec_witness :
    (0 < (2 : ℚ) →
      fluxdofsAvg (fun _ : Fin 1 => (2 : ℚ)) (fun _ => 6) 0 = 6 / 2) ∧
    ((2 : ℚ) = 0 → fluxdofsAvg (fun _ : Fin 1 => (2 : ℚ)) (fun _ => 6) 0 = 0) :=
  fluxdofsAvg_spec (fun _ => 2) (fun _ => 6) 0

/-- C7: under constrained projection the system is the interface mass matrix
(the outer product of the basis integrated over the coupling interface);
degrees of freedom whose row support stays within the `1e-15` threshold are
constrained to exactly zero, and only the remaining ones are handed to the
linear solver. -/
theorem fluxdofsProj_spec {n : ℕ}
    (freeSol : (Fin n → Fin n → ℚ) → (Fin n → ℚ) → (Fin n → Option ℚ) →
      (Fin n → ℚ))
    (q : Quad n) (v : Fin n → ℚ) (i : Fin n) :
    (rowsupp (projMatrix q) projTol i = false → fluxdofsProj freeSol q v i = 0) ∧
    (rowsupp (projMatrix q) projTol i = true →
      fluxdofsProj freeSol q v i =
        freeSol (projMatrix q) v (projectioncons (projMatrix q)) i) := by
  constructor
  · intro h
    rw [fluxdofsProj, constrainedSolve]
    rw [projectioncons, h, if_neg (by simp)]
  · intro h
    rw [fluxdofsProj, constrainedSolve]
    rw [projectioncons, h, if_pos rfl]

theorem fluxdofsProj_spec_witness :
    (rowsupp (projMatrix ([] : Quad 1)) projTol 0 = false →
      fluxdofsProj (fun _ _ _ _ => 37) ([] : Quad 1) (fun _ => 5) 0 = 0) ∧
    (rowsupp (projMatrix ([] : Quad 1)) projTol 0 = true →
      fluxdofsProj (fun _ _ _ _ => 37) ([] : Quad 1) (fun _ => 5) 0 = 37) :=
  fluxdofsProj_spec (fun _ _ _ _ => 37) ([] : Quad 1) (fun _ => 5) 0

/-- C8: for a uniform flux field over the interface — each degree of freedom
carrying the constant times its interface area — the area-weighted strategy
reproduces the constant exactly at every production point, given that the
basis functions supported on the interface sum to one there. -/
theorem fluxdofsAvg_uniform {n : ℕ} {P : Type} (interfaceareas : Fin n → ℚ)
    (c : ℚ) (pts : List P) (basis : P → Fin n → ℚ)
    (hpu : ∀ p ∈ pts,
      (Finset.univ.filter fun i => 0 < interfaceareas i).sum (basis p) = 1) :
    ∀ val ∈ pts.map (fun p =>
        dot (basis p)
          (fluxdofsAvg interfaceareas fun i : Fin n => c * interfaceareas i)),
      val = c := by
  intro val hval
  rcases List.mem_map.mp hval with ⟨p, hp, rfl⟩
  have h1 : ∀ i : Fin n,
      basis p i * fluxdofsAvg interfaceareas (fun i => c * interfaceareas i) i =
        if 0 < interfaceareas i then basis p i * c else 0 := by
    intro i
    by_cases h : 0 < interfaceareas i
    · rw [if_pos h, fluxdofsAvg, normalize, if_pos h, mul_assoc,
        mul_inv_cancel₀ (ne_of_gt h), mul_one]
    · rw [if_neg h, fluxdofsAvg, normalize, if_neg h, mul_zero, mul_zero]
  rw [dot, Finset.sum_congr rfl fun i _ => h1 i, ← Finset.sum_filter,
    ← Finset.sum_mul, hpu p hp, one_mul]

theorem fluxdofsAvg_uniform_witness :
    dot (fun i : Fin 2 => if i = 0 then (1 : ℚ) else 5)
      (fluxdofsAvg (fun i : Fin 2 => if i = 0 then (1 : ℚ) else 0)
        fun i : Fin 2 => 3 * (if i = 0 then (1 : ℚ) else 0)) = 3 :=
  fluxdofsAvg_uniform (fun i : Fin 2 => if i = 0 then (1 : ℚ) else 0) 3 [()]
    (fun _ i => if i = 0 then (1 : ℚ) else 5)
    (by intro p hp; rw [Finset.sum_filter, Fin.sum_univ_two]; norm_num)
    (dot (fun i : Fin 2 => if i = 0 then (1 : ℚ) else 5)
      (fluxdofsAvg (fun i : Fin 2 => if i = 0 then (1 : ℚ) else 0)
        fun i : Fin 2 => 3 * (if i = 0 then (1 : ℚ) else 0)))
    (by simp)

/-! ## The startup side check -/

/-- C9: any side other than `'Dirichlet'` and `'Neumann'` makes `laplace`
fail with `invalid side ...` at startup: the whole run is the error, so no
interface registration, exchange or solve ever happens. -/
theorem laplace_invalid_side {R P : Type} {n : ℕ} (side : String)
    (h1 : side ≠ ("Dirichlet")) (h2 : side ≠ ("Neumann"))
    (mkCfg : Side → Config R P n) (p0 : ℚ) (tr : List Event) :
    laplace side mkCfg p0 tr = Except.error (("invalid side ") ++ side) := by
  unfold laplace checkSide
  rw [if_neg h2, if_neg h1]

theorem laplace_invalid_side_witness :
    laplace ("bottom") (fun _ => unitCfg) 1 [] =
      Except.error (("invalid side ") ++ ("bottom")) ∧
    laplace ("top") (fun _ => unitCfg) 1 [] =
      Except.error (("invalid side ") ++ ("top")) :=
  ⟨laplace_invalid_side ("bottom") (by decide) (by decide) (fun _ => unitCfg) 1 [],
   laplace_invalid_side ("top") (by decide) (by decide) (fun _ => unitCfg) 1 []⟩

/-! ## Claims about whole runs -/

/-- Every iteration of a successful run logs the six phases, `awaitRead`
through `decide`, with one common step size for `solve` and `advance`. -/
theorem runLoop_shape {R P : Type} {n : ℕ} (cfg : Config R P n) :
    ∀ (tr : List Event) (s0 sF : LoopState R n) (logs : List (IterLog R P n)),
      runLoop cfg tr s0 = Except.ok (sF, logs) →
      ∀ log ∈ logs, ∃ (a b w r : Bool) (d : ℚ),
        log.steps = [Step.awaitRead a, Step.maybeCheckpoint b, Step.solve d,
          Step.maybeWrite w, Step.advance d, Step.decide r] := by
  intro tr
  induction tr with
  | nil =>
    intro s0 sF logs h log hmem
    simp only [runLoop, Except.ok.injEq, Prod.mk.injEq] at h
    rw [← h.2] at hmem
    exact absurd hmem (List.not_mem_nil log)
  | cons ev tl ih =>
    intro s0 sF logs h log hmem
    unfold runLoop at h
    rcases hit : laplaceIter cfg ev s0 with e | ⟨s1, log1⟩
    · rw [hit] at h
      exact absurd h (by simp)
    · rw [hit] at h
      simp only [] at h
      rcases hrun : runLoop cfg tl s1 with e | ⟨s2, logs2⟩
      · rw [hrun] at h
        simp only [] at h
        exact absurd h (by simp)
      · rw [hrun] at h
        simp only [Except.ok.injEq, Prod.mk.injEq] at h
        rw [← h.2] at hmem
        rcases List.mem_cons.mp hmem with rfl | hm
        · obtain ⟨hsteps, -⟩ := laplaceIter_ok_spec hit
          exact ⟨ev.readAvailable, ev.writeCheckpointRequired, ev.writeRequired,
            ev.readCheckpointRequired, min cfg.timestep s0.precice_dt, hsteps⟩
        · exact ih s1 s2 logs2 hrun log hm

/-- C2: each iteration of a run performs AwaitRead, MaybeCheckpoint, Solve,
MaybeWrite, Advance and Decide in that strict order; the run's full step
trace ends with the single `finalize`, so no phase runs after the channel is
released. -/
theorem run_ordering {R P : Type} {n : ℕ} (cfg : Config R P n) (p0 : ℚ)
    (tr : List Event) (sF : LoopState R n) (logs : List (IterLog R P n))
    (h : runLoop cfg tr (initState cfg p0) = Except.ok (sF, logs)) :
    (∀ log ∈ logs, log.steps.map phase = [0, 1, 2, 3, 4, 5]) ∧
    (fullTrace logs).getLast? = some Step.finalize ∧
    (∀ st ∈ (logs.map IterLog.steps).flatten, phase st < phase Step.finalize) := by
  refine ⟨?_, ?_, ?_⟩
  · intro log hm
    obtain ⟨a, b, w, r, d, hs⟩ := runLoop_shape cfg tr _ sF logs h log hm
    rw [hs]
    rfl
  · unfold fullTrace
    rw [List.getLast?_concat]
  · intro st hst
    rcases List.mem_flatten.mp hst with ⟨l, hl, hstl⟩
    rcases List.mem_map.mp hl with ⟨log, hlog, rfl⟩
    obtain ⟨a, b, w, r, d, hs⟩ := runLoop_shape cfg tr _ sF logs h log hlog
    rw [hs] at hstl
    simp only [List.mem_cons, List.not_mem_nil, or_false] at hstl
    rcases hstl with rfl | rfl | rfl | rfl | rfl | rfl <;> simp [phase]

/-- A rollback-free two-iteration trace: the channel first grants admissible
step `1/2`, then `2`. -/
def trTwo : List Event :=
  [⟨false, [], false, false, (1 : ℚ) / 2, false⟩,
   ⟨false, [], false, false, 2, false⟩]

/-- The final state of `runLoop unitCfg trTwo (initState unitCfg 3)`. -/
def stateTwo : LoopState Unit 1 :=
  ⟨(fun _ => none), (), (fun _ => 0), none, 2⟩

/-- The first iteration's log on `trTwo` from `initState unitCfg 3`. -/
def logTwoA : IterLog Unit Unit 1 :=
  ⟨[Step.awaitRead false, Step.maybeCheckpoint false, Step.solve (min 1 3),
    Step.maybeWrite false, Step.advance (min 1 3), Step.decide false],
   (), (fun _ => none), (fun _ => 0), min 1 3, (fun _ => 0), none, min 1 3⟩

/-- The second iteration's log on `trTwo` from `initState unitCfg 3`. -/
def logTwoB : IterLog Unit Unit 1 :=
  ⟨[Step.awaitRead false, Step.maybeCheckpoint false,
    Step.solve (min 1 ((1 : ℚ) / 2)), Step.maybeWrite false,
    Step.advance (min 1 ((1 : ℚ) / 2)), Step.decide false],
   (), (fun _ => none), (fun _ => 0), min 1 ((1 : ℚ) / 2), (fun _ => 0), none,
   min 1 ((1 : ℚ) / 2)⟩

theorem run_ordering_witness :
    (∀ log ∈ [logTwoA, logTwoB], log.steps.map phase = [0, 1, 2, 3, 4, 5]) ∧
    (fullTrace [logTwoA, logTwoB]).getLast? = some Step.finalize ∧
    (∀ st ∈ ([logTwoA, logTwoB].map IterLog.steps).flatten,
      phase st < phase Step.finalize) :=
  run_ordering unitCfg 3 trTwo stateTwo [logTwoA, logTwoB] (by rfl)

/-- The per-iteration step sizes of a successful run, threaded from the
state's `precice_dt`. -/
theorem runLoop_dts {R P : Type} {n : ℕ} (cfg : Config R P n) :
    ∀ (tr : List Event) (s0 sF : LoopState R n) (logs : List (IterLog R P n)),
      runLoop cfg tr s0 = Except.ok (sF, logs) →
      logs.map IterLog.solveDt = dtSeq cfg.timestep s0.precice_dt tr ∧
      logs.map IterLog.advanceSent = dtSeq cfg.timestep s0.precice_dt tr := by
  intro tr
  induction tr with
  | nil =>
    intro s0 sF logs h
    simp only [runLoop, Except.ok.injEq, Prod.mk.injEq] at h
    rw [← h.2]
    exact ⟨rfl, rfl⟩
  | cons ev tl ih =>
    intro s0 sF logs h
    unfold runLoop at h
    rcases hit : laplaceIter cfg ev s0 with e | ⟨s1, log1⟩
    · rw [hit] at h
      exact absurd h (by simp)
    · rw [hit] at h
      simp only [] at h
      rcases hrun : runLoop cfg tl s1 with e | ⟨s2, logs2⟩
      · rw [hrun] at h
        simp only [] at h
        exact absurd h (by simp)
      · rw [hrun] at h
        simp only [Except.ok.injEq, Prod.mk.injEq] at h
        rw [← h.2]
        obtain ⟨-, -, -, -, h5, -, -, h8, -, -, -, h12, -, -⟩ :=
          laplaceIter_ok_spec hit
        obtain ⟨ihA, ihB⟩ := ih s1 s2 logs2 hrun
        rw [h12] at ihA ihB
        exact ⟨by rw [List.map_cons, h5, ihA]; rfl,
          by rw [List.map_cons, h8, ihB]; rfl⟩

/-- C3: in every iteration the step size handed to the linear solve and to
`advance` is `min(timestep, precice_dt)` where `precice_dt` is the channel's
most recent answer: the `initialize` result before the first iteration and
the previous `advance` result afterwards. -/
theorem run_step_size {R P : Type} {n : ℕ} (cfg : Config R P n) (p0 : ℚ)
    (tr : List Event) (sF : LoopState R n) (logs : List (IterLog R P n))
    (h : runLoop cfg tr (initState cfg p0) = Except.ok (sF, logs)) :
    logs.map IterLog.solveDt = dtSeq cfg.timestep p0 tr ∧
    logs.map IterLog.advanceSent = dtSeq cfg.timestep p0 tr :=
  runLoop_dts cfg tr (initState cfg p0) sF logs h

theorem run_step_size_witness :
    [logTwoA, logTwoB].map IterLog.solveDt = dtSeq unitCfg.timestep 3 trTwo ∧
    [logTwoA, logTwoB].map IterLog.advanceSent = dtSeq unitCfg.timestep 3 trTwo :=
  run_step_size unitCfg 3 trTwo stateTwo [logTwoA, logTwoB] (by rfl)

/-- A run never fails once the checkpoint variable holds a value. -/
theorem runLoop_ok_of_some {R P : Type} {n : ℕ} (cfg : Config R P n) :
    ∀ (tr : List Event) (s0 : LoopState R n) (c : Fin n → ℚ),
      s0.lhscheckpoint = some c → ∃ out, runLoop cfg tr s0 = Except.ok out := by
  intro tr
  induction tr with
  | nil => exact fun s0 c _ => ⟨(s0, []), rfl⟩
  | cons ev tl ih =>
    intro s0 c h
    obtain ⟨⟨s1, log1⟩, hit⟩ := laplaceIter_ok_of_ckpt cfg ev s0 (fun _ => by
      by_cases hw : ev.writeCheckpointRequired = true
      · rw [if_pos hw]
        rfl
      · rw [if_neg hw, h]
        rfl)
    obtain ⟨-, -, -, -, -, -, -, -, -, -, h11, -, -, -⟩ := laplaceIter_ok_spec hit
    have hc1 : ∃ c', s1.lhscheckpoint = some c' := by
      by_cases hw : ev.writeCheckpointRequired = true
      · exact ⟨s0.lhs0, by rw [h11, if_pos hw]⟩
      · exact ⟨c, by rw [h11, if_neg hw, h]⟩
    obtain ⟨c', hc'⟩ := hc1
    obtain ⟨out, hrun⟩ := ih s1 c' hc'
    refine ⟨(out.1, log1 :: out.2), ?_⟩
    unfold runLoop
    rw [hit]
    simp only []
    rw [hrun]

/-- A run from an unassigned checkpoint variable succeeds whenever the trace
satisfies `ckptPre`. -/
theorem runLoop_ok_of_pre {R P : Type} {n : ℕ} (cfg : Config R P n) :
    ∀ (tr : List Event) (s0 : LoopState R n),
      s0.lhscheckpoint = none → ckptPre tr →
      ∃ out, runLoop cfg tr s0 = Except.ok out := by
  intro tr
  induction tr with
  | nil => exact fun s0 _ _ => ⟨(s0, []), rfl⟩
  | cons ev tl ih =>
    intro s0 hnone hpre
    by_cases hw : ev.writeCheckpointRequired = true
    · obtain ⟨⟨s1, log1⟩, hit⟩ := laplaceIter_ok_of_ckpt cfg ev s0 (fun _ => by
        rw [if_pos hw]
        rfl)
      obtain ⟨-, -, -, -, -, -, -, -, -, -, h11, -, -, -⟩ := laplaceIter_ok_spec hit
      obtain ⟨out, hrun⟩ := runLoop_ok_of_some cfg tl s1 s0.lhs0
        (by rw [h11, if_pos hw])
      refine ⟨(out.1, log1 :: out.2), ?_⟩
      unfold runLoop
      rw [hit]
      simp only []
      rw [hrun]
    · have hrc : ev.readCheckpointRequired = false := by
        by_contra hcon
        rw [Bool.not_eq_false] at hcon
        obtain ⟨j, hj, hj0, hjw⟩ := hpre 0 (Nat.succ_pos _) hcon
        have hj' : j = 0 := Nat.le_zero.mp hj0
        subst hj'
        exact hw hjw
      obtain ⟨⟨s1, log1⟩, hit⟩ := laplaceIter_ok_of_ckpt cfg ev s0 (fun hq => by
        rw [hq] at hrc
        exact absurd hrc (by simp))
      obtain ⟨-, -, -, -, -, -, -, -, -, -, h11, -, -, -⟩ := laplaceIter_ok_spec hit
      have h1 : s1.lhscheckpoint = none := by
        rw [h11, if_neg hw, hnone]
      have hpre' : ckptPre tl := by
        intro k hk hkr
        obtain ⟨j, hj, hjk, hjw⟩ :=
          hpre (k + 1) (Nat.succ_lt_succ hk) hkr
        cases j with
        | zero => exact absurd hjw hw
        | succ j' =>
          exact ⟨j', Nat.lt_of_succ_lt_succ hj, Nat.le_of_succ_le_succ hjk, hjw⟩
      obtain ⟨out, hrun⟩ := ih s1 h1 hpre'
      refine ⟨(out.1, log1 :: out.2), ?_⟩
      unfold runLoop
      rw [hit]
      simp only []
      rw [hrun]

/-- C10: the checkpoint variable read on rollback is assigned only by the
checkpoint-save branch.  When every trace requires the write-checkpoint
action at or before its first read-checkpoint requirement, the restore
always finds a saved state and the run succeeds; on a trace violating this,
the run fails with the undefined-name error instead of restoring anything. -/
theorem checkpoint_restore_defined :
    (∀ (R P : Type) (n : ℕ) (cfg : Config R P n) (p0 : ℚ) (tr : List Event),
      ckptPre tr → ∃ out, runLoop cfg tr (initState cfg p0) = Except.ok out) ∧
    runLoop unitCfg [⟨false, [], false, false, 1, true⟩] (initState unitCfg 1) =
      Except.error RunError.nameError := by
  constructor
  · intro R P n cfg p0 tr hpre
    exact runLoop_ok_of_pre cfg tr (initState cfg p0) rfl hpre
  · rfl

end HeatCoupling
